import Mathlib

/-
Verification development for the runmacs Emacs-Lisp compatibility runtime
(src/main.go).  Each section below gives a shallow embedding, in Lean, of
the Go functions a claim is about, translated directly from the source:
Go strings are modelled as byte lists (List Nat), rune slices as lists of
code points, Go maps as association lists where a later write is a
prepended entry (so lookup of the first match agrees with map overwrite),
and fallible Go functions return Except or Option.  Theorems at the end
settle the claims against these embeddings.
-/

namespace Runmacs

/- ------------------------------------------------------------------
Section: unwind-protect (unwindProtectImpl, src/main.go lines 4488-4506).

The protected form and the cleanup forms are modelled as state
transformers: a protected form maps a state to a new state plus an
Except outcome, a cleanup form maps a state to a new state plus an
optional failure.  unwindProtectImpl evaluates the protected form, then
evaluates every cleanup form in order keeping only the first cleanup
failure, then returns the protected failure if there was one, else the
first cleanup failure, else the protected value.
------------------------------------------------------------------- -/

/-- One pass over the cleanup list, mirroring the Go loop: every cleanup
runs (even after an earlier cleanup failed) and only the first failure
is retained in cleanupErr. -/
def runCleanups {σ E : Type} : List (σ → σ × Option E) → σ → σ × Option E
  | [], s => (s, none)
  | c :: rest, s =>
    let r1 := c s
    let r2 := runCleanups rest r1.1
    (r2.1, match r1.2 with
           | some e => some e
           | none => r2.2)

/-- Embedding of unwindProtectImpl. -/
def unwindProtect {σ E V : Type} (prot : σ → σ × Except E V)
    (cleanups : List (σ → σ × Option E)) (s : σ) : σ × Except E V :=
  let r := prot s
  let cl := runCleanups cleanups r.1
  match r.2 with
  | .error e => (cl.1, .error e)
  | .ok v =>
    match cl.2 with
    | some e => (cl.1, .error e)
    | none => (cl.1, .ok v)

/-- Independent description of the state effect of running every cleanup
form in order, ignoring failures. -/
def applyAllCleanups {σ E : Type} (cleanups : List (σ → σ × Option E)) (s : σ) : σ :=
  cleanups.foldl (fun st c => (c st).1) s

/-- Independent description of the first failure produced while running
the cleanup forms in order. -/
def firstCleanupFailure {σ E : Type} : List (σ → σ × Option E) → σ → Option E
  | [], _ => none
  | c :: rest, s =>
    match (c s).2 with
    | some e => some e
    | none => firstCleanupFailure rest (c s).1

theorem runCleanups_eq {σ E : Type} (cleanups : List (σ → σ × Option E)) (s : σ) :
    runCleanups cleanups s = (applyAllCleanups cleanups s, firstCleanupFailure cleanups s) := by
  induction cleanups generalizing s with
  | nil => rfl
  | cons c rest ih =>
    cases h : (c s).2 <;>
      simp [runCleanups, applyAllCleanups, firstCleanupFailure, List.foldl_cons, ih, h]

/- ------------------------------------------------------------------
Section: let and let* (letImpl, letStarImpl, parseElispLetBindings,
evalLetBody, src/main.go lines 4227-4362).

A small expression language stands in for the host Lisp forms the claim
exercises: integer literals, variable references and integer addition.
Environments are association lists searched front to back; binding a
name locally prepends an entry, which agrees with the frame-map
overwrite semantics of golisp BindLocallyTo for lookups.
------------------------------------------------------------------- -/

inductive LVal : Type
  | nil : LVal
  | int : Int → LVal
  deriving DecidableEq, Repr

inductive LExpr : Type
  | num : Int → LExpr
  | var : String → LExpr
  | add : LExpr → LExpr → LExpr
  deriving DecidableEq, Repr

abbrev LEnv := List (String × LVal)

def lookupVar : LEnv → String → Option LVal
  | [], _ => none
  | (k, v) :: rest, x => if k = x then some v else lookupVar rest x

/-- Evaluation of the small expression language; an unbound variable is
a failure (golisp reports a void binding), and adding non-integers is a
type failure. -/
def evalE (env : LEnv) : LExpr → Except String LVal
  | .num n => .ok (.int n)
  | .var x =>
    match lookupVar env x with
    | some v => .ok v
    | none => .error ("void: " ++ x)
  | .add a b => do
    let va ← evalE env a
    let vb ← evalE env b
    match va, vb with
    | .int na, .int nb => .ok (.int (na + nb))
    | _, _ => .error "add expects integers"

/-- Body evaluation, mirroring evalLetBody: forms are evaluated in
order and the last value is returned (nil for an empty body). -/
def evalBody (env : LEnv) : List LExpr → Except String LVal
  | [] => .ok .nil
  | [e] => evalE env e
  | e :: rest => do
    let _ ← evalE env e
    evalBody env rest

/-- The non-sequential pass of parseElispLetBindings: every initializer
is evaluated in the outer environment (fail-fast, in order) before any
binding is created; a bare name gets nil. -/
def evalLetInits (env : LEnv) : List (String × Option LExpr) → Except String (List (String × LVal))
  | [] => .ok []
  | (x, none) :: rest => do
    let vs ← evalLetInits env rest
    .ok ((x, LVal.nil) :: vs)
  | (x, some e) :: rest => do
    let v ← evalE env e
    let vs ← evalLetInits env rest
    .ok ((x, v) :: vs)

/-- Binding the collected values into a fresh frame below env, in
order, as letImpl does with BindLocallyTo. -/
def bindAll (bs : List (String × LVal)) (env : LEnv) : LEnv :=
  bs.foldl (fun e b => b :: e) env

/-- Embedding of letImpl: parallel binding. -/
def letImpl (binds : List (String × Option LExpr)) (body : List LExpr) (env : LEnv) :
    Except String LVal := do
  let bs ← evalLetInits env binds
  evalBody (bindAll bs env) body

/-- Embedding of letStarImpl: sequential binding, each initializer
evaluated in the frame extended with the earlier bindings. -/
def letStarImpl (binds : List (String × Option LExpr)) (body : List LExpr) (env : LEnv) :
    Except String LVal :=
  go binds env
where
  go : List (String × Option LExpr) → LEnv → Except String LVal
    | [], local_ => evalBody local_ body
    | (x, none) :: rest, local_ => go rest ((x, LVal.nil) :: local_)
    | (x, some e) :: rest, local_ => do
      let v ← evalE local_ e
      go rest ((x, v) :: local_)

/- ------------------------------------------------------------------
Section: condition hierarchy (defineErrorImpl, conditionNameMatches,
conditionCaseMatches, conditionCaseImpl, src/main.go lines 2049-2063
and 4397-4486).

The errorParents Go map is an association list where a later write is a
prepended entry, so lookup of the first match agrees with map
overwrite.  The Go parent-chain walk terminates because every visited
name is added to a seen set and the chain only continues through keys
of the finite errorParents map, so it runs at most reg.length + 1
iterations; the fuel reg.length + 2 used below therefore never runs
out and the fuel-indexed recursion computes exactly the Go loop.
------------------------------------------------------------------- -/

abbrev ErrReg := List (String × String)

def lookupParent : ErrReg → String → Option String
  | [], _ => none
  | (k, v) :: rest, c => if k = c then some v else lookupParent rest c

/-- Embedding of defineErrorImpl: registers name with the given parent,
defaulting to the root condition error. -/
def defineError (reg : ErrReg) (name : String) (parent : Option String) : ErrReg :=
  (name, parent.getD "error") :: reg

/-- The seen-guarded parent-chain loop of conditionNameMatches.  An
absent key yields the empty string (the Go map zero value), which ends
the walk. -/
def condChainWalk (reg : ErrReg) (sp : String) : Nat → List String → String → Bool
  | 0, _, _ => false
  | fuel + 1, seen, c =>
    if c = "" then false
    else if c ∈ seen then false
    else if c = sp then true
    else if c = "error" then false
    else condChainWalk reg sp fuel (c :: seen) ((lookupParent reg c).getD "")

/-- Embedding of conditionNameMatches. -/
def conditionNameMatches (reg : ErrReg) (sp errCond : String) : Bool :=
  if sp = "t" then true
  else if condChainWalk reg sp (reg.length + 2) [] errCond then true
  else sp = "error" && errCond = "error"

/-- A handler clause head: a symbol, or a list whose symbol elements
are tested in order (non-symbol elements are skipped by the Go code and
are therefore not represented). -/
inductive HandlerSpec : Type
  | sym : String → HandlerSpec
  | list : List String → HandlerSpec
  deriving DecidableEq, Repr

/-- Embedding of conditionCaseMatches. -/
def conditionCaseMatches (reg : ErrReg) : HandlerSpec → String → Bool
  | .sym s, c => conditionNameMatches reg s c
  | .list ss, c => ss.any fun s => conditionNameMatches reg s c

/-- The failure kinds conditionCaseImpl discriminates on. -/
inductive ElErr : Type
  | throwSig : String → ElErr
  | signal : String → Bool → ElErr
  | generic : String → ElErr
  deriving DecidableEq, Repr

/-- The condition name conditionCaseImpl derives from a failure: a
thrown tag maps to throw, a named signal to its name (or error when the
name is empty), and any other failure to error. -/
def errCondOf : ElErr → String
  | .throwSig _ => "throw"
  | .signal c _ => if c = "" then "error" else c
  | .generic _ => "error"

/-- Embedding of the handler-selection core of conditionCaseImpl:
clauses are walked in order, the body value of the first matching clause is
returned, and with no match the original failure re-propagates.  Body
evaluation is abstracted to the value it would produce. -/
def conditionCase {V : Type} (reg : ErrReg) (protectedR : Except ElErr V)
    (handlers : List (HandlerSpec × V)) : Except ElErr V :=
  match protectedR with
  | .ok v => .ok v
  | .error e =>
    match handlers.find? (fun h => conditionCaseMatches reg h.1 (errCondOf e)) with
    | some h => .ok h.2
    | none => .error e

/- ------------------------------------------------------------------
Section: defun arity (makeElispDefunWithOptional, parseExpectedArgCount,
src/main.go lines 1657-1709 and 252-263).

The call-time parameter binding of a defun with elisp markers: fewer
arguments than the required prefix, or more than required+optional with
no rest parameter, produce a Go error built with fmt.Errorf, i.e. a
plain text message.  parseExpectedArgCount is the regex-based recovery
of the count from such a message, modelled as the leftmost-first match
of the pattern: the word expected, an optional at-least marker, one or
more digits (greedy), then the word parameters.
------------------------------------------------------------------- -/

structure ElispParamSpec where
  required : List String
  optional : List String
  rest : Option String
  deriving DecidableEq, Repr

inductive BindVal : Type
  | plain : LVal → BindVal
  | restList : List LVal → BindVal
  deriving DecidableEq, Repr

/-- Optional-parameter binding: each optional name takes the next
remaining argument, or nil when the arguments ran out. -/
def bindOptional : List String → List LVal → List (String × BindVal)
  | [], _ => []
  | s :: rest, [] => (s, .plain .nil) :: bindOptional rest []
  | s :: rest, a :: more => (s, .plain a) :: bindOptional rest more

/-- Embedding of the arity-checking and binding body of
makeElispDefunWithOptional.  The two failure branches reproduce the
fmt.Errorf message texts of the source verbatim. -/
def elispCallCheck (fnName : String) (spec : ElispParamSpec) (args : List LVal) :
    Except String (List (String × BindVal)) :=
  if args.length < spec.required.length then
    .error (fnName ++ " expected at least " ++ toString spec.required.length ++
            " parameters, received " ++ toString args.length)
  else
    let reqBinds := (spec.required.zip args).map fun p => (p.1, BindVal.plain p.2)
    let optBinds := bindOptional spec.optional (args.drop spec.required.length)
    match spec.rest with
    | some r =>
      .ok (reqBinds ++ optBinds ++
           [(r, BindVal.restList (args.drop (spec.required.length + spec.optional.length)))])
    | none =>
      let idx := min args.length (spec.required.length + spec.optional.length)
      if idx < args.length then
        .error (fnName ++ " expected " ++ toString idx ++
                " parameters, received " ++ toString args.length)
      else
        .ok (reqBinds ++ optBinds)

def isDigitChar (c : Char) : Bool := 48 ≤ c.toNat && c.toNat ≤ 57

/-- Longest digit run at the front, as the greedy digit class matches. -/
def takeDigits : List Char → List Char × List Char
  | [] => ([], [])
  | c :: rest =>
    if isDigitChar c then
      let r := takeDigits rest
      (c :: r.1, r.2)
    else ([], c :: rest)

def digitsToNat (ds : List Char) : Nat :=
  ds.foldl (fun acc c => acc * 10 + (c.toNat - 48)) 0

/-- Strips a literal pattern off the front of the input, returning the
remainder on success. -/
def stripLit : List Char → List Char → Option (List Char)
  | [], rest => some rest
  | _ :: _, [] => none
  | p :: ps, c :: cs => if p = c then stripLit ps cs else none

/-- After the optional at-least marker: a space, one or more digits
taken greedily, then the literal word parameters. -/
def arityNumTail (r : List Char) : Option Nat :=
  match stripLit [' '] r with
  | none => none
  | some r1 =>
    let d := takeDigits r1
    if d.1 = [] then none
    else
      match stripLit " parameters".toList d.2 with
      | none => none
      | some _ => some (digitsToNat d.1)

/-- The regex tried at one start position, preferring the at-least
alternative as a greedy optional group does. -/
def matchArityAt (cs : List Char) : Option Nat :=
  match stripLit "expected".toList cs with
  | none => none
  | some r1 =>
    match stripLit " at least".toList r1 with
    | some r2 =>
      match arityNumTail r2 with
      | some n => some n
      | none => arityNumTail r1
    | none => arityNumTail r1

/-- Leftmost scan over start positions. -/
def scanArity : List Char → Option Nat
  | [] => none
  | c :: rest =>
    match matchArityAt (c :: rest) with
    | some n => some n
    | none => scanArity rest

/-- Embedding of parseExpectedArgCount (the Atoi step cannot fail on a
digit run in this unbounded-integer model). -/
def parseExpectedArgCount (msg : String) : Option Nat :=
  scanArity msg.toList

/- ------------------------------------------------------------------
Section: keymaps (defvarKeymapImpl, defineKeyImpl, keymapSetImpl,
asetImpl/writeElt, src/main.go lines 1792-1831, 1898-1949, 5234-5246,
5552-5575).

A key spec is the Go key string, a byte string, modelled as a list of
bytes (Fin 256).  The sparse binding map is an association list where a
write prepends (map overwrite for first-match lookup); the dense full
map is a plain list of 256 cells.  defvarKeymapImpl writes the initial
bindings into the sparse map while scanning its arguments and only
afterwards creates the full map with every cell nil; keyword arguments
such as the full flag are consumed during that scan and are represented
here by the already-extracted pair list and flag.  defineKeyImpl writes
the sparse map and, when a full map exists and the key is a single
byte, mirrors the write into the dense cell at that byte.
------------------------------------------------------------------- -/

abbrev KeyB := List (Fin 256)

inductive KVal : Type
  | nil : KVal
  | sym : String → KVal
  deriving DecidableEq, Repr

structure ElKeymap where
  bindings : List (KeyB × KVal)
  fullMap : Option (List KVal)
  deriving DecidableEq, Repr

def kmLookup : List (KeyB × KVal) → KeyB → Option KVal
  | [], _ => none
  | (k, v) :: rest, q => if k = q then some v else kmLookup rest q

/-- Embedding of writeElt on an el-vector: out-of-range writes are
silently dropped. -/
def writeElt (tbl : List KVal) (i : Nat) (v : KVal) : List KVal :=
  if i < tbl.length then tbl.set i v else tbl

/-- Embedding of defvarKeymapImpl after argument scanning: initial
bindings (with empty key specs skipped) are written into the sparse
map, then the dense table is created all-nil when the full flag was
seen.  Nothing mirrors the initial bindings into the dense table. -/
def defvarKeymap (inits : List (KeyB × KVal)) (full : Bool) : ElKeymap :=
  let bs := inits.foldl (fun acc p => if p.1 = [] then acc else (p.1, p.2) :: acc) []
  { bindings := bs
    fullMap := if full then some (List.replicate 256 KVal.nil) else none }

/-- Embedding of the write path of defineKeyImpl (and keymapSetImpl,
which forwards to it) once the keymap object is resolved: an empty key
spec is an error; otherwise the sparse map is written and, when the
dense table exists and the key is one byte long, the dense cell at the
first byte of the key is written too. -/
def defineKey (km : ElKeymap) (key : KeyB) (dval : KVal) : Except String ElKeymap :=
  if key = [] then .error "define-key unsupported key spec"
  else
    .ok { bindings := (key, dval) :: km.bindings
          fullMap :=
            match km.fullMap with
            | some tbl =>
              if key.length = 1 then some (writeElt tbl (key.headD 0).val dval)
              else some tbl
            | none => none }

/-- The sparse/dense agreement the claim asserts: whenever the dense
table is present, every single-byte key bound in the sparse map has the
same value stored at its byte index of the dense table. -/
def KmMirrors (km : ElKeymap) : Prop :=
  ∀ tbl, km.fullMap = some tbl →
    ∀ k v, kmLookup km.bindings k = some v → k.length = 1 →
      tbl.getD (k.headD 0).val KVal.nil = v

/-- The structural fact that a dense table always has 256 cells. -/
def KmWF (km : ElKeymap) : Prop :=
  ∀ tbl, km.fullMap = some tbl → tbl.length = 256

theorem getD_set_eq {α : Type} (l : List α) (i : Nat) (v : α) (d : α) (h : i < l.length) :
    (l.set i v).getD i d = v := by
  induction l generalizing i with
  | nil => simp at h
  | cons a rest ih =>
    cases i with
    | zero => simp [List.set, List.getD]
    | succ j =>
      simp only [List.set, List.getD_cons_succ]
      exact ih j (by simpa using h)

theorem getD_set_ne {α : Type} (l : List α) (i j : Nat) (v : α) (d : α) (h : i ≠ j) :
    (l.set i v).getD j d = l.getD j d := by
  induction l generalizing i j with
  | nil => simp [List.set]
  | cons a rest ih =>
    cases i with
    | zero =>
      cases j with
      | zero => exact absurd rfl h
      | succ j2 => simp [List.set]
    | succ i2 =>
      cases j with
      | zero => simp [List.set]
      | succ j2 =>
        simp only [List.set, List.getD_cons_succ]
        exact ih i2 j2 fun hc => h (by rw [hc])

/- ------------------------------------------------------------------
Section: byte and rune helpers.

Buffer text is a Go rune slice, modelled as a list of code points.  The
Go code repeatedly converts a rune slice to a string (its UTF-8 bytes)
and back, and byte-level substring search (strings.Index) works on the
encoded form, so both directions of the encoding are modelled exactly:
utf8Bytes is the standard UTF-8 encoding and decodeUTF8 is the Go
string-to-rune conversion, which accepts the valid encodings Go accepts
and yields the replacement rune 0xFFFD for one invalid byte otherwise.
------------------------------------------------------------------- -/

def utf8Bytes (c : Nat) : List Nat :=
  if c < 0x80 then [c]
  else if c < 0x800 then [0xC0 + c / 64, 0x80 + c % 64]
  else if c < 0x10000 then [0xE0 + c / 4096, 0x80 + c / 64 % 64, 0x80 + c % 64]
  else [0xF0 + c / 262144, 0x80 + c / 4096 % 64, 0x80 + c / 64 % 64, 0x80 + c % 64]

def encodeUTF8 : List Nat → List Nat
  | [] => []
  | r :: rest => utf8Bytes r ++ encodeUTF8 rest

def isContByte (b : Nat) : Bool := 0x80 ≤ b && b < 0xC0

/-- The lower bound Go accepts for the first continuation byte of a
three-byte sequence (rejecting overlong forms and surrogates). -/
def cont3Lo (b1 : Nat) : Nat := if b1 = 0xE0 then 0xA0 else 0x80

def cont3Hi (b1 : Nat) : Nat := if b1 = 0xED then 0x9F else 0xBF

def cont4Lo (b1 : Nat) : Nat := if b1 = 0xF0 then 0x90 else 0x80

def cont4Hi (b1 : Nat) : Nat := if b1 = 0xF4 then 0x8F else 0xBF

def decodeUTF8 : List Nat → List Nat
  | [] => []
  | b1 :: rest =>
    if b1 < 0x80 then b1 :: decodeUTF8 rest
    else if 0xC2 ≤ b1 && b1 ≤ 0xDF then
      match rest with
      | b2 :: rest2 =>
        if isContByte b2 then ((b1 - 0xC0) * 64 + (b2 - 0x80)) :: decodeUTF8 rest2
        else 0xFFFD :: decodeUTF8 (b2 :: rest2)
      | [] => [0xFFFD]
    else if 0xE0 ≤ b1 && b1 ≤ 0xEF then
      match rest with
      | b2 :: b3 :: rest3 =>
        if cont3Lo b1 ≤ b2 && b2 ≤ cont3Hi b1 && isContByte b3 then
          ((b1 - 0xE0) * 4096 + (b2 - 0x80) * 64 + (b3 - 0x80)) :: decodeUTF8 rest3
        else 0xFFFD :: decodeUTF8 (b2 :: b3 :: rest3)
      | [b2] => 0xFFFD :: decodeUTF8 [b2]
      | [] => [0xFFFD]
    else if 0xF0 ≤ b1 && b1 ≤ 0xF4 then
      match rest with
      | b2 :: b3 :: b4 :: rest4 =>
        if cont4Lo b1 ≤ b2 && b2 ≤ cont4Hi b1 && isContByte b3 && isContByte b4 then
          ((b1 - 0xF0) * 262144 + (b2 - 0x80) * 4096 + (b3 - 0x80) * 64 + (b4 - 0x80))
            :: decodeUTF8 rest4
        else 0xFFFD :: decodeUTF8 (b2 :: b3 :: b4 :: rest4)
      | [b2, b3] => 0xFFFD :: decodeUTF8 [b2, b3]
      | [b2] => 0xFFFD :: decodeUTF8 [b2]
      | [] => [0xFFFD]
    else 0xFFFD :: decodeUTF8 rest
termination_by l => l.length
decreasing_by all_goals simp [List.length_cons] <;> omega

def startsWithBytes : List Nat → List Nat → Bool
  | [], _ => true
  | _ :: _, [] => false
  | a :: as1, b :: bs1 => a = b && startsWithBytes as1 bs1

def bytesIndexFrom (needle : List Nat) : List Nat → Nat → Option Nat
  | hay, i =>
    if startsWithBytes needle hay then some i
    else
      match hay with
      | [] => none
      | _ :: t => bytesIndexFrom needle t (i + 1)

/-- Embedding of strings.Index on byte strings, returning none for the
Go result -1. -/
def bytesIndex (hay needle : List Nat) : Option Nat :=
  bytesIndexFrom needle hay 0

/- ------------------------------------------------------------------
Section: buffers and literal forward search (elBuffer, insertImpl,
gotoCharImpl, searchForwardImpl, src/main.go lines 68-75, 2655-2687,
3344-3352, 3179-3212).

A buffer owns a rune-slice text and an integer point.  The shared match
record (matchData, matchInString, matchBuffer) is threaded through
explicitly.  searchForwardImpl takes the haystack segment as a rune
slice, converts it to a string and calls strings.Index, so the index it
adds to point is a BYTE offset of the encoded segment while point and
the needle length are counted in runes; the embedding reproduces that
mixture exactly.  The Go slice expression text[point:limit] panics when
point exceeds the limit argument; the embedding yields an empty segment
there (no claim exercises it).
------------------------------------------------------------------- -/

structure ElBuffer where
  text : List Nat
  point : Int
  deriving DecidableEq, Repr

structure MatchGlobals where
  matchData : List Int
  matchInString : Bool
  matchOnBuffer : Bool
  deriving DecidableEq, Repr

/-- Embedding of clearMatchData. -/
def clearedMatch : MatchGlobals := ⟨[], false, false⟩

/-- Embedding of searchForwardImpl, returning the new match record, the
buffer and the returned position (none for the nil return). -/
def searchForward (g : MatchGlobals) (buf : ElBuffer) (needle : List Nat)
    (limitArg : Option Int) : MatchGlobals × ElBuffer × Option Int :=
  if needle = [] then (g, buf, some (buf.point + 1))
  else
    let limit : Nat :=
      match limitArg with
      | some n => min (max (n - 1) 0).toNat buf.text.length
      | none => buf.text.length
    let p : Nat := (min (max buf.point 0) (buf.text.length : Int)).toNat
    let seg := (buf.text.take limit).drop p
    match bytesIndex (encodeUTF8 seg) (encodeUTF8 needle) with
    | none => (clearedMatch, { buf with point := (p : Int) }, none)
    | some idx =>
      let start : Int := (p : Int) + idx
      let stop : Int := start + needle.length
      (⟨[start + 1, stop + 1], false, true⟩,
       { buf with point := (p : Int) + idx + needle.length },
       some ((p : Int) + idx + needle.length + 1))

/-- Embedding of gotoCharImpl: the 1-based target is clamped into the
buffer and stored 0-based; the clamped 1-based position is returned. -/
def gotoChar (buf : ElBuffer) (target : Int) : ElBuffer × Int :=
  let p := min (max (target - 1) 0) (buf.text.length : Int)
  ({ buf with point := p }, p + 1)

/-- Embedding of insertImpl for an already-flattened rune string: point
is clamped, then the runes are spliced in at point and point advances
past them. -/
def insertText (buf : ElBuffer) (runes : List Nat) : ElBuffer :=
  let p : Nat := (min (max buf.point 0) (buf.text.length : Int)).toNat
  if runes = [] then { buf with point := (p : Int) }
  else { text := buf.text.take p ++ runes ++ buf.text.drop p
         point := (p : Int) + runes.length }

/- ------------------------------------------------------------------
Section: replace-match (replaceMatchImpl, expandReplacementTemplate,
src/main.go lines 3666-3694 and 3696-3792).

The runtime state visible to replaceMatchImpl: the shared match data
(1-based pairs for a buffer match), the buffer table, the index of the
current buffer and the recorded match buffer.  The replacement template
and the returned string are Go strings, i.e. byte strings.
------------------------------------------------------------------- -/

/-- Embedding of expandReplacementTemplate over template bytes: 92 is
the backslash, 38 the ampersand, 48-57 the digits. -/
def expandTemplate : List Nat → List (List Nat) → List Nat
  | [], _ => []
  | b :: rest, matched =>
    if b ≠ 92 then b :: expandTemplate rest matched
    else
      match rest with
      | [] => [92]
      | c :: rest2 =>
        if c = 38 then matched.headD [] ++ expandTemplate rest2 matched
        else if c = 92 then 92 :: expandTemplate rest2 matched
        else if 48 ≤ c && c ≤ 57 then matched.getD (c - 48) [] ++ expandTemplate rest2 matched
        else c :: expandTemplate rest2 matched

/-- Consecutive (start, stop) pairs of the match data past group 0, as
the Go loop for i := 2; i+1 < len; i += 2 visits them. -/
def groupPairs : List Int → List (Int × Int)
  | a :: b :: rest => (a, b) :: groupPairs rest
  | _ => []

structure RMState where
  matchData : List Int
  buffers : List ElBuffer
  currentIdx : Nat
  matchBufferIdx : Option Nat
  deriving DecidableEq, Repr

/-- One capture group of an explicit-string replace: 0-based offsets
into the rune slice, empty when absent, negative, out of range or
inverted. -/
def groupSliceStr (rs : List Nat) (p : Int × Int) : List Nat :=
  if p.1 < 0 ∨ p.2 < 0 ∨ p.1 > (rs.length : Int) ∨ p.2 > (rs.length : Int) ∨ p.1 > p.2 then []
  else encodeUTF8 ((rs.take p.2.toNat).drop p.1.toNat)

/-- One capture group of a buffer replace: pairs are 1-based, decrement
first, then the same range checks. -/
def groupSliceBuf (text : List Nat) (p : Int × Int) : List Nat :=
  if p.1 < 0 ∨ p.2 < 0 then []
  else
    let a := p.1 - 1
    let b := p.2 - 1
    if a < 0 ∨ b < 0 ∨ a > (text.length : Int) ∨ b > (text.length : Int) ∨ a > b then []
    else encodeUTF8 ((text.take b.toNat).drop a.toNat)

/-- Embedding of replaceMatchImpl.  The result pairs the new state with
the returned string (bytes). -/
def replaceMatch (st : RMState) (repl : List Nat) (literal : Bool) (subexp : Nat)
    (explicitStr : Option (List Nat)) : RMState × List Nat :=
  if st.matchData.length < 2 then (st, repl)
  else if st.matchData.length ≤ subexp * 2 + 1 then (st, repl)
  else if st.matchData.getD (subexp * 2) 0 < 0 ∨ st.matchData.getD (subexp * 2 + 1) 0 < 0 then
    (st, repl)
  else
    let start := st.matchData.getD (subexp * 2) 0
    let stop := st.matchData.getD (subexp * 2 + 1) 0
    match explicitStr with
      | some rs =>
        let e1 := if stop > (rs.length : Int) then (rs.length : Int) else stop
        let s2 := if start > e1 then e1 else start
        let e2 := if start > e1 then start else e1
        let matched := encodeUTF8 ((rs.take e2.toNat).drop s2.toNat)
          :: (groupPairs (st.matchData.drop 2)).map (groupSliceStr rs)
        let replacement := if literal then repl else expandTemplate repl matched
        (st, encodeUTF8 (rs.take s2.toNat) ++ replacement ++ encodeUTF8 (rs.drop e2.toNat))
      | none =>
        let bufIdx := st.matchBufferIdx.getD st.currentIdx
        if hb : bufIdx < st.buffers.length then
          let buf := st.buffers.get ⟨bufIdx, hb⟩
          let s0 := start - 1
          let e0 := stop - 1
          let s1 := if s0 < 0 then 0 else s0
          let e1 := if e0 > (buf.text.length : Int) then (buf.text.length : Int) else e0
          let s2 := if s1 > e1 then e1 else s1
          let e2 := if s1 > e1 then s1 else e1
          let matched := encodeUTF8 ((buf.text.take e2.toNat).drop s2.toNat)
            :: (groupPairs (st.matchData.drop 2)).map (groupSliceBuf buf.text)
          let replacement := if literal then repl else expandTemplate repl matched
          let replRunes := decodeUTF8 replacement
          let newBuf : ElBuffer :=
            { text := buf.text.take s2.toNat ++ replRunes ++ buf.text.drop e2.toNat
              point := s2 + replRunes.length }
          ({ matchData := []
             buffers := st.buffers.set bufIdx newBuf
             currentIdx := st.currentIdx
             matchBufferIdx := none }, replacement)
        else (st, repl)

/- ------------------------------------------------------------------
Section: preprocessor (preprocessElisp, parseCharLiteral,
parseRadixLiteral, readToken, readTokenAfterParen,
tokenLooksLikeLeadingDigitSymbol, normalizeLeadingDigitSymbol,
isDelimiter, isDigit, isOctal, isSymbolChar, utf8DecodeRuneInString,
src/main.go lines 5591-5928).

The Go scanner walks the source byte by byte, so the embedding works on
byte lists.  The loop advances its index by at least one byte every
iteration, so fuel src.length + 1 can never run out; the fuel-indexed
recursion therefore computes exactly the Go loop.  The previous source
byte (0 before the first byte, matching the Go zero value used when
peeking before the start) is carried through the recursion because two
rewrites peek backwards at it.
------------------------------------------------------------------- -/

def sBytes (s : String) : List Nat := s.toList.map Char.toNat

/-- Decimal digits of a number, as bytes (strconv.Itoa for a
non-negative value). -/
def digitsOfNat (n : Nat) : List Nat := sBytes (Nat.repr n)

def isOctalB (b : Nat) : Bool := 48 ≤ b && b ≤ 55

def isDigitB (b : Nat) : Bool := 48 ≤ b && b ≤ 57

def isDelimiterB (b : Nat) : Bool :=
  b = 0 || b = 32 || b = 9 || b = 10 || b = 13 || b = 40 || b = 41 ||
  b = 91 || b = 93 || b = 39 || b = 96 || b = 44 || b = 34

def isSymbolCharB (b : Nat) : Bool :=
  (97 ≤ b && b ≤ 122) || (65 ≤ b && b ≤ 90) || isDigitB b ||
  b = 45 || b = 95 || b = 58 || b = 47 || b = 43 || b = 42 || b = 60 ||
  b = 62 || b = 61 || b = 63 || b = 33 || b = 36 || b = 37 || b = 38 ||
  b = 46 || b = 126

/-- Embedding of readToken: the longest front run of symbol bytes and
its length. -/
def readTokenB : List Nat → List Nat × Nat
  | [] => ([], 0)
  | b :: rest =>
    if isSymbolCharB b then
      let r := readTokenB rest
      (b :: r.1, r.2 + 1)
    else ([], 0)

def skipWsCount : List Nat → Nat
  | [] => 0
  | b :: rest => if b = 32 || b = 9 || b = 10 || b = 13 then skipWsCount rest + 1 else 0

/-- Embedding of readTokenAfterParen: the head token after an opening
parenthesis and surrounding whitespace, with the byte count from the
parenthesis through the token. -/
def readTokenAfterParen (s : List Nat) : List Nat × Nat :=
  match s with
  | 40 :: rest =>
    let w := skipWsCount rest
    let t := readTokenB (rest.drop w)
    if t.2 = 0 then ([], 0) else (t.1, 1 + w + t.2)
  | _ => ([], 0)

/-- Embedding of tokenLooksLikeLeadingDigitSymbol, with the byte before
the position passed explicitly (0 when at the start of input). -/
def tokenLooksLeadingDigit (prev : Nat) (s : List Nat) : Bool :=
  if ¬ isDelimiterB prev then false
  else
    let t := readTokenB s
    if t.2 = 0 then false
    else
      let boundOk :=
        match s.drop t.2 with
        | [] => true
        | b :: _ => isDelimiterB b
      boundOk && t.1.any fun b => (97 ≤ b && b ≤ 122) || (65 ≤ b && b ≤ 90)

/-- The single-character escape table of parseCharLiteral. -/
def escRepl (e : Nat) : Nat :=
  if e = 110 then 10
  else if e = 116 then 9
  else if e = 114 then 13
  else if e = 102 then 12
  else if e = 98 then 8
  else if e = 92 then 92
  else if e = 32 then 32
  else e

/-- Embedding of parseCharLiteral: the rewritten digit bytes and the
number of source bytes consumed. -/
def parseCharLiteralB (s : List Nat) : Option (List Nat × Nat) :=
  match s with
  | 63 :: c1 :: rest2 =>
    if c1 = 92 && !rest2.isEmpty then
      match rest2 with
      | d1 :: d2 :: d3 :: _ =>
        if isOctalB d1 && isOctalB d2 && isOctalB d3 then
          some (digitsOfNat ((d1 - 48) * 64 + (d2 - 48) * 8 + (d3 - 48)), 5)
        else some (digitsOfNat (escRepl d1), 3)
      | d1 :: _ => some (digitsOfNat (escRepl d1), 3)
      | [] => none
    else
      if c1 < 0x80 then some (digitsOfNat c1, 2)
      else
        match decodeUTF8 (c1 :: rest2) with
        | r :: _ => some (digitsOfNat r, 1 + (utf8Bytes r).length)
        | [] => none
  | _ => none

def radixDigitOk (base : Nat) (c : Nat) : Bool :=
  (48 ≤ c && c ≤ 57) || (base = 16 && ((97 ≤ c && c ≤ 102) || (65 ≤ c && c ≤ 70)))

def radixScan (base : Nat) : List Nat → List Nat
  | [] => []
  | c :: rest => if radixDigitOk base c then c :: radixScan base rest else []

def radixDigitVal (c : Nat) : Nat :=
  if 48 ≤ c && c ≤ 57 then c - 48 else if 97 ≤ c then c - 87 else c - 55

/-- Embedding of parseRadixLiteral: the digit scan accepts any decimal
digit regardless of base, and the ParseInt step then rejects a digit
that is not below the base (the int64 overflow failure of ParseInt is
not reachable in this unbounded-integer model and is not modelled). -/
def parseRadixLiteralB (s : List Nat) : Option (List Nat × Nat) :=
  match s with
  | 35 :: b :: rest =>
    if rest.isEmpty then none
    else
      let base : Nat :=
        if b = 111 || b = 79 then 8
        else if b = 120 || b = 88 then 16
        else if b = 98 || b = 66 then 2
        else 0
      if base = 0 then none
      else
        let ds := radixScan base rest
        if ds.isEmpty then none
        else if ds.all (fun c => radixDigitVal c < base) then
          some (digitsOfNat (ds.foldl (fun a c => a * base + radixDigitVal c) 0), 2 + ds.length)
        else none
  | _ => none

structure PPState where
  inString : Bool
  inComment : Bool
  escaped : Bool
  vectorDepth : Nat
  prev : Nat
  deriving DecidableEq, Repr

/-- The preprocessElisp scanner loop.  Each case consumes at least one
source byte before recursing, mirroring one iteration of the Go loop;
the order of the cases is the order of the Go checks, and a Go check
that falls through to the plain copy at the end does the same here. -/
def ppGo : Nat → PPState → List Nat → Except String (List Nat)
  | 0, _, _ => .error "fuel exhausted"
  | _ + 1, st, [] =>
    if st.inString then .error "unterminated string literal"
    else if st.vectorDepth ≠ 0 then .error "unmatched [ in elisp source"
    else .ok []
  | fuel + 1, st, ch :: rest =>
    if st.inComment then
      (ppGo fuel { st with inComment := ch ≠ 10, prev := ch } rest).map (ch :: ·)
    else if st.inString then
      let st2 :=
        if st.escaped then { st with escaped := false }
        else if ch = 92 then { st with escaped := true }
        else if ch = 34 then { st with inString := false }
        else st
      (ppGo fuel { st2 with prev := ch } rest).map (ch :: ·)
    else if ch = 59 then
      (ppGo fuel { st with inComment := true, prev := ch } rest).map (ch :: ·)
    else if ch = 34 then
      (ppGo fuel { st with inString := true, prev := ch } rest).map (ch :: ·)
    else if ch = 35 && rest.headD 0 = 39 then
      (ppGo fuel { st with prev := 39 } rest.tail).map (39 :: ·)
    else if ch = 35 && (parseRadixLiteralB (ch :: rest)).isSome then
      match parseRadixLiteralB (ch :: rest) with
      | some rc =>
        (ppGo fuel { st with prev := (ch :: rest).getD (rc.2 - 1) 0 }
            ((ch :: rest).drop rc.2)).map (rc.1 ++ ·)
      | none => .error "unreachable"
    else if ch = 92 && (rest.headD 0 = 63 || rest.headD 0 = 46 ||
                        rest.headD 0 = 44 || rest.headD 0 = 33) && !rest.isEmpty then
      (ppGo fuel { st with prev := rest.headD 0 } rest.tail).map
        (fun out => 34 :: rest.headD 0 :: 34 :: out)
    else if ch = 49 && !rest.isEmpty && (rest.headD 0 = 43 || rest.headD 0 = 45) &&
            isDelimiterB st.prev && isDelimiterB (rest.tail.headD 0) then
      (ppGo fuel { st with prev := rest.headD 0 } rest.tail).map
        (fun out => (if rest.headD 0 = 43 then sBytes "succ" else sBytes "pred") ++ out)
    else if ch = 63 && (parseCharLiteralB (ch :: rest)).isSome then
      match parseCharLiteralB (ch :: rest) with
      | some rc =>
        (ppGo fuel { st with prev := (ch :: rest).getD (rc.2 - 1) 0 }
            ((ch :: rest).drop rc.2)).map (rc.1 ++ ·)
      | none => .error "unreachable"
    else if ch = 91 then
      (ppGo fuel { st with vectorDepth := st.vectorDepth + 1, prev := ch } rest).map
        (fun out => sBytes "(vector-literal " ++ out)
    else if ch = 40 &&
        ((readTokenAfterParen (ch :: rest)).1 = sBytes "point" ||
         (readTokenAfterParen (ch :: rest)).1 = sBytes "dun-mode") &&
        (let after := (ch :: rest).drop (readTokenAfterParen (ch :: rest)).2
         (after.drop (skipWsCount after)).headD 0 = 41) then
      let t := readTokenAfterParen (ch :: rest)
      let repl :=
        if t.1 = sBytes "point" then sBytes "(el-point"
        else sBytes "(call-fn " ++ [39] ++ sBytes "dun-mode"
      (ppGo fuel { st with prev := (ch :: rest).getD (t.2 - 1) 0 }
          ((ch :: rest).drop t.2)).map (repl ++ ·)
    else if ch = 93 then
      if st.vectorDepth = 0 then .error "unmatched ] in elisp source"
      else
        (ppGo fuel { st with vectorDepth := st.vectorDepth - 1, prev := ch } rest).map (41 :: ·)
    else if isDigitB ch && tokenLooksLeadingDigit st.prev (ch :: rest) then
      let t := readTokenB (ch :: rest)
      (ppGo fuel { st with prev := (ch :: rest).getD (t.2 - 1) 0 }
          ((ch :: rest).drop t.2)).map (fun out => sBytes "n-" ++ t.1 ++ out)
    else
      (ppGo fuel { st with prev := ch } rest).map (ch :: ·)

/-- Embedding of preprocessElisp over source bytes. -/
def preprocessElisp (src : List Nat) : Except String (List Nat) :=
  ppGo (src.length + 1) ⟨false, false, false, 0, 0⟩ src

/- ------------------------------------------------------------------
Section: cl-loop (clLoopImpl, src/main.go lines 4848-4950).

The iteration core of clLoopImpl after clause parsing and the one-time
evaluation of the with/repeat/sequence/numeric-range expressions.  The
environment the loop binds into and the host evaluation of the for
assignments, the while condition and the body are abstracted to state
transformers over an arbitrary state type sigma; a Go error from any
of them aborts the loop as in the source (return nil, err).  The
controllers mirror the Go loop head in order: the hard cap maxIters =
100000, the repeat count (none for the Go sentinel -1), sequence
exhaustion, and the numeric bound; the while condition is evaluated
after the for assignments, and nVal advances by the step only when a
numeric clause exists.
------------------------------------------------------------------- -/

inductive NumCmp : Type
  | to : NumCmp
  | downto : NumCmp
  | below : NumCmp
  | other : NumCmp
  deriving DecidableEq, Repr

/-- The numeric-bound test of the Go switch; an unrecognized comparator
leaves ok true. -/
def numOk (cmp : NumCmp) (nVal nEnd : Int) : Bool :=
  match cmp with
  | .to => nVal ≤ nEnd
  | .downto => nEnd ≤ nVal
  | .below => nVal < nEnd
  | .other => true

structure ClLoopCtl (σ : Type) where
  repeatCount : Option Nat
  seqLen : Option Nat
  bindSeq : Nat → σ → Except Unit σ
  numeric : Option (NumCmp × Int)
  numStep : Int
  bindNum : Int → σ → Except Unit σ
  assigns : σ → Except Unit σ
  whileE : Option (σ → Except Unit (σ × Bool))
  body : σ → Except Unit σ

structure ClLoopRes (σ : Type) where
  state : σ
  iters : Nat
  failed : Bool

def repeatBreak (rc : Option Nat) (iter : Nat) : Bool :=
  match rc with
  | some r => r ≤ iter
  | none => false

def seqBreak (sl : Option Nat) (iter : Nat) : Bool :=
  match sl with
  | some n => n ≤ iter
  | none => false

def orFail {σ : Type} (s : σ) : Except Unit σ → Except (Bool × σ) σ
  | .ok s2 => .ok s2
  | .error _ => .error (false, s)

/-- The per-iteration tail after the break checks: sequence binding,
numeric bound and binding, for assignments, while condition, body.  A
result of error (true, s) is a loop break, error (false, s) a
propagated failure. -/
def clLoopStepRest {σ : Type} (ctl : ClLoopCtl σ) (iter : Nat) (nVal : Int) (s : σ) :
    Except (Bool × σ) σ := do
  let s1 ←
    match ctl.seqLen with
    | some _ => orFail s (ctl.bindSeq iter s)
    | none => pure s
  let s2 ←
    match ctl.numeric with
    | some p =>
      if numOk p.1 nVal p.2 then orFail s1 (ctl.bindNum nVal s1)
      else .error (true, s1)
    | none => pure s1
  let s3 ← orFail s2 (ctl.assigns s2)
  let s4 ←
    match ctl.whileE with
    | some w =>
      match w s3 with
      | .ok r => if r.2 then pure r.1 else Except.error (true, r.1)
      | .error _ => Except.error (false, s3)
    | none => pure s3
  orFail s4 (ctl.body s4)

/-- The Go loop with its hard iteration cap; the result carries the
final iteration counter, which equals the number of completed
iterations since the loop starts it at zero. -/
def clLoopGo {σ : Type} (ctl : ClLoopCtl σ) (iter : Nat) (nVal : Int) (s : σ) : ClLoopRes σ :=
  if 100000 ≤ iter then ⟨s, iter, false⟩
  else if repeatBreak ctl.repeatCount iter then ⟨s, iter, false⟩
  else if seqBreak ctl.seqLen iter then ⟨s, iter, false⟩
  else
    match clLoopStepRest ctl iter nVal s with
    | .error (true, s2) => ⟨s2, iter, false⟩
    | .error (false, s2) => ⟨s2, iter, true⟩
    | .ok s2 =>
      clLoopGo ctl (iter + 1) (nVal + (if ctl.numeric.isSome then ctl.numStep else 0)) s2
termination_by 100000 - iter
decreasing_by omega

/-- Embedding of the clLoopImpl iteration phase, starting at iteration
zero with the evaluated numeric start value. -/
def clLoop {σ : Type} (ctl : ClLoopCtl σ) (nStart : Int) (s : σ) : ClLoopRes σ :=
  clLoopGo ctl 0 nStart s

/- ------------------------------------------------------------------
Theorems.
------------------------------------------------------------------- -/

/-- C1 (counterexample): calling a two-required-parameter function with
three arguments does not produce a structured arity record; the
embedding of makeElispDefunWithOptional yields a plain fmt.Errorf text
message, refuting the claim that the failure carries structured fields
rather than a free-text message. -/
theorem arity_failure_is_free_text :
    elispCallCheck "f" ⟨["a", "b"], [], none⟩ [LVal.nil, LVal.nil, LVal.nil]
      = Except.error "f expected 2 parameters, received 3" := rfl

/-- C1 (amended): the arity failure is a free-text message of the fixed
format NAME expected [at least] N parameters, received M; for a
two-required-parameter function called with three arguments the text
encodes minimum 2 (exact form, no at-least marker) and received 3, for
a one-required-parameter function called with no arguments it encodes
minimum 1 with the at-least marker, and parseExpectedArgCount recovers
the minimum from both forms by regex. -/
theorem arity_message_encodes_fields :
    elispCallCheck "f" ⟨["a", "b"], [], none⟩ [LVal.nil, LVal.nil, LVal.nil]
        = Except.error "f expected 2 parameters, received 3"
    ∧ parseExpectedArgCount "f expected 2 parameters, received 3" = some 2
    ∧ elispCallCheck "g" ⟨["a"], [], none⟩ []
        = Except.error "g expected at least 1 parameters, received 0"
    ∧ parseExpectedArgCount "g expected at least 1 parameters, received 0" = some 1 :=
  ⟨rfl, rfl, rfl, rfl⟩

/-- C3 (code bug): searching forward for the literal b in a buffer
whose text is the runes of "eb" with an accented e (code point 233,
a two-byte character) moves point to 3 although the text has only 2
characters, because searchForwardImpl adds the byte offset returned by
strings.Index to the rune-counted point; the documented invariant that
point stays within 0..len(text) is violated. -/
theorem searchForward_point_leaves_range :
    (searchForward clearedMatch ⟨[233, 98], 0⟩ [98] none).2.1.point = 3
    ∧ (searchForward clearedMatch ⟨[233, 98], 0⟩ [98] none).2.1.text.length = 2
    ∧ (((searchForward clearedMatch ⟨[233, 98], 0⟩ [98] none).2.1.text.length : Int)
          < (searchForward clearedMatch ⟨[233, 98], 0⟩ [98] none).2.1.point) := by
  refine ⟨rfl, rfl, ?_⟩
  decide

/-- C6: let evaluates the binding initializers in the outer environment
before any new binding becomes visible, so with bindings x = 1 and
y = x the binding of y resolves the outer x (whatever value it has)
and not the sibling x; and let* binds sequentially, so the form
binding x = 1 then y = x + 1 and returning y evaluates to 2. -/
theorem let_parallel_letStar_sequential :
    (∀ (v : Int) (outer : LEnv),
        letImpl [("x", some (.num 1)), ("y", some (.var "x"))] [.var "y"]
          (("x", LVal.int v) :: outer) = .ok (LVal.int v))
    ∧ letStarImpl [("x", some (.num 1)), ("y", some (.add (.var "x") (.num 1)))]
        [.var "y"] [] = .ok (LVal.int 2) :=
  ⟨fun _ _ => rfl, rfl⟩

/-- C7: searching the literal b forward in a buffer with text "aabbaa"
and point 0 finds the first match at character index 2, overwrites the
match record with the 1-based span 3..4 (group 0 covering exactly the
matched character) marked as a buffer match, moves point just past the
match to 3, and returns the new 1-based position 4. -/
theorem searchForward_literal_b_in_aabbaa (g : MatchGlobals) :
    searchForward g ⟨[97, 97, 98, 98, 97, 97], 0⟩ [98] none
      = (⟨[3, 4], false, true⟩, ⟨[97, 97, 98, 98, 97, 97], 3⟩, some 4) := rfl

/-- C8: the preprocessor rewrites the character literals ?a and the
backslash-n escape and the radix literals in hex, octal and binary to
their numeric values as decimal digits, and running the preprocessor
again over each produced digit token leaves it unchanged. -/
theorem preprocess_literals_and_idempotence :
    preprocessElisp (sBytes "?a") = .ok (sBytes "97")
    ∧ preprocessElisp (sBytes "?\\n") = .ok (sBytes "10")
    ∧ preprocessElisp (sBytes "#x1F") = .ok (sBytes "31")
    ∧ preprocessElisp (sBytes "#o17") = .ok (sBytes "15")
    ∧ preprocessElisp (sBytes "#b101") = .ok (sBytes "5")
    ∧ preprocessElisp (sBytes "97") = .ok (sBytes "97")
    ∧ preprocessElisp (sBytes "10") = .ok (sBytes "10")
    ∧ preprocessElisp (sBytes "31") = .ok (sBytes "31")
    ∧ preprocessElisp (sBytes "15") = .ok (sBytes "15")
    ∧ preprocessElisp (sBytes "5") = .ok (sBytes "5") :=
  ⟨rfl, rfl, rfl, rfl, rfl, rfl, rfl, rfl, rfl, rfl⟩

/-- C10: when the shared match record is empty, has no pair for the
requested subexpression, or that pair is negative, replaceMatchImpl
returns the replacement string and changes nothing: the whole runtime
state, including the text and point of every buffer and the match data,
is returned untouched. -/
theorem replaceMatch_empty_match_is_noop (st : RMState) (repl : List Nat) (literal : Bool)
    (subexp : Nat) (explicitStr : Option (List Nat))
    (h : st.matchData.length < 2 ∨ st.matchData.length ≤ subexp * 2 + 1
         ∨ st.matchData.getD (subexp * 2) 0 < 0 ∨ st.matchData.getD (subexp * 2 + 1) 0 < 0) :
    replaceMatch st repl literal subexp explicitStr = (st, repl) := by
  unfold replaceMatch
  by_cases h1 : st.matchData.length < 2
  · rw [if_pos h1]
  · rw [if_neg h1]
    by_cases h2 : st.matchData.length ≤ subexp * 2 + 1
    · rw [if_pos h2]
    · rw [if_neg h2]
      have h3 : st.matchData.getD (subexp * 2) 0 < 0
          ∨ st.matchData.getD (subexp * 2 + 1) 0 < 0 := by
        rcases h with h | h | h | h
        · exact absurd h h1
        · exact absurd h h2
        · exact Or.inl h
        · exact Or.inr h
      rw [if_pos h3]

def rmStW : RMState := ⟨[], [⟨[97], 0⟩], 0, none⟩

/-- Witness for C10 at a concrete state with empty match data. -/
theorem replaceMatch_empty_match_is_noop_witness :
    replaceMatch rmStW [120] false 0 none = (rmStW, [120]) :=
  replaceMatch_empty_match_is_noop rmStW [120] false 0 none (Or.inl (by decide))

theorem unwindProtect_eq {σ E V : Type} (prot : σ → σ × Except E V)
    (cleanups : List (σ → σ × Option E)) (s : σ) :
    unwindProtect prot cleanups s =
      (applyAllCleanups cleanups (prot s).1,
        match (prot s).2 with
        | .error e => .error e
        | .ok v =>
          match firstCleanupFailure cleanups (prot s).1 with
          | some e => .error e
          | none => .ok v) := by
  simp only [unwindProtect, runCleanups_eq]
  cases (prot s).2 with
  | error e => rfl
  | ok v => cases firstCleanupFailure cleanups (prot s).1 <;> rfl

/-- C4: unwind-protect runs every cleanup form for effect no matter how
the protected form ended (the final state is the state after applying
all cleanups to the final state of the protected form); a failure of
the protected form propagates and any cleanup failure is then
discarded; on protected success the first cleanup failure propagates
instead of the value; and with no failure anywhere the value of the
protected form is returned. -/
theorem unwindProtect_cleanup_semantics {σ E V : Type} (prot : σ → σ × Except E V)
    (cleanups : List (σ → σ × Option E)) (s : σ) :
    (unwindProtect prot cleanups s).1 = applyAllCleanups cleanups (prot s).1
    ∧ (∀ e : E, (prot s).2 = .error e → (unwindProtect prot cleanups s).2 = .error e)
    ∧ (∀ v : V, (prot s).2 = .ok v →
        ∀ e : E, firstCleanupFailure cleanups (prot s).1 = some e →
          (unwindProtect prot cleanups s).2 = .error e)
    ∧ (∀ v : V, (prot s).2 = .ok v → firstCleanupFailure cleanups (prot s).1 = none →
        (unwindProtect prot cleanups s).2 = .ok v) := by
  refine ⟨by rw [unwindProtect_eq], ?_, ?_, ?_⟩
  · intro e he
    rw [unwindProtect_eq]
    simp [he]
  · intro v hv e he
    rw [unwindProtect_eq]
    simp [hv, he]
  · intro v hv hnone
    rw [unwindProtect_eq]
    simp [hv, hnone]

def protW : Nat → Nat × Except String Nat := fun n => (n + 1, Except.ok 5)

def cleanupsW : List (Nat → Nat × Option String) :=
  [fun n => (n + 10, some "boom"), fun n => (n + 100, none)]

/-- Witness for C4: a protected form that succeeds with value 5 while
the first of two cleanups fails; both cleanups still run (final state
111 from 0) and the cleanup failure replaces the success value. -/
theorem unwindProtect_cleanup_semantics_witness :
    (unwindProtect protW cleanupsW 0).1 = 111
    ∧ (unwindProtect protW cleanupsW 0).2 = .error "boom" :=
  ⟨((unwindProtect_cleanup_semantics protW cleanupsW 0).1).trans rfl,
   (unwindProtect_cleanup_semantics protW cleanupsW 0).2.2.1 5 rfl "boom" rfl⟩

theorem kmLookup_cons (k : KeyB) (v : KVal) (bs : List (KeyB × KVal)) (q : KeyB) :
    kmLookup ((k, v) :: bs) q = if k = q then some v else kmLookup bs q := rfl

theorem writeElt_length (tbl : List KVal) (i : Nat) (v : KVal) :
    (writeElt tbl i v).length = tbl.length := by
  unfold writeElt
  split <;> simp

/-- C2 (counterexample): defvar-keymap with the full flag and the
initial binding of the one-byte key 97 to a command leaves the sparse
map holding the binding while every cell of the dense table, created
afterwards, is nil, so the sparse map and the dense table disagree on
a single-character key right after construction. -/
theorem defvar_keymap_full_initial_binding_unmirrored :
    ¬ KmMirrors (defvarKeymap [([(97 : Fin 256)], KVal.sym "cmd")] true) := by
  intro hm
  have h2 := hm (List.replicate 256 KVal.nil) rfl [(97 : Fin 256)] (KVal.sym "cmd") rfl rfl
  have h3 : (List.replicate 256 KVal.nil).getD
      ((([(97 : Fin 256)] : KeyB).headD 0).val) KVal.nil = KVal.nil := by decide
  rw [h3] at h2
  exact KVal.noConfusion h2

/-- C2 (amended): a single-character (one-byte) binding written through
define-key or keymap-set is mirrored into the dense table, so the
sparse/dense agreement together with the 256-cell shape is preserved by
every define-key write; only defvar-keymap construction can break the
agreement, since it stores initial bindings in the sparse map and then
creates the dense table all-nil without mirroring them. -/
theorem defineKey_preserves_mirror (km : ElKeymap) (key : KeyB) (v : KVal) (km2 : ElKeymap)
    (hwf : KmWF km) (hm : KmMirrors km) (hok : defineKey km key v = Except.ok km2) :
    KmWF km2 ∧ KmMirrors km2 := by
  unfold defineKey at hok
  by_cases hk : key = []
  · rw [if_pos hk] at hok
    exact absurd hok (by simp)
  · rw [if_neg hk] at hok
    have hok2 := Except.ok.inj hok
    subst hok2
    constructor
    · intro tbl2 htbl2
      cases hfm : km.fullMap with
      | none => simp [hfm] at htbl2
      | some tbl =>
        have hlen := hwf tbl hfm
        by_cases hl : key.length = 1
        · simp only [hfm, hl, if_pos] at htbl2
          simp only [Option.some.injEq] at htbl2
          rw [← htbl2, writeElt_length, hlen]
        · simp [hfm, hl] at htbl2
          rw [← htbl2, hlen]
    · intro tbl2 htbl2 k2 v2 hlk hklen
      cases hfm : km.fullMap with
      | none => simp [hfm] at htbl2
      | some tbl =>
        have hlen := hwf tbl hfm
        simp only [kmLookup_cons] at hlk
        by_cases hl : key.length = 1
        · simp only [hfm, hl, if_pos, Option.some.injEq] at htbl2
          subst htbl2
          by_cases hkk : key = k2
          · rw [if_pos hkk] at hlk
            have hv := Option.some.inj hlk
            have hb : (key.headD 0).val < tbl.length := by
              rw [hlen]; exact (key.headD 0).isLt
            subst hkk
            unfold writeElt
            rw [if_pos hb, getD_set_eq _ _ _ _ hb]
            exact hv
          · rw [if_neg hkk] at hlk
            have hold := hm tbl hfm k2 v2 hlk hklen
            obtain ⟨a, ha⟩ := List.length_eq_one.mp hl
            obtain ⟨a2, ha2⟩ := List.length_eq_one.mp hklen
            have hne : (key.headD 0).val ≠ (k2.headD 0).val := by
              rw [ha, ha2]
              simp only [List.headD_cons]
              intro hc
              exact hkk (by rw [ha, ha2]; exact congrArg (fun x => [x]) (Fin.ext hc))
            unfold writeElt
            by_cases hb : (key.headD 0).val < tbl.length
            · rw [if_pos hb, getD_set_ne _ _ _ _ _ hne]
              exact hold
            · rw [if_neg hb]
              exact hold
        · simp [hfm, hl] at htbl2
          subst htbl2
          by_cases hkk : key = k2
          · exact absurd (hkk ▸ hklen) hl
          · rw [if_neg hkk] at hlk
            exact hm tbl hfm k2 v2 hlk hklen

def kmW : ElKeymap := defvarKeymap [] true

def kmW2 : ElKeymap :=
  { bindings := [([(97 : Fin 256)], KVal.sym "c")]
    fullMap := some (writeElt (List.replicate 256 KVal.nil) 97 (KVal.sym "c")) }

/-- Witness for C2: writing key 97 through define-key into a freshly
constructed full keymap with no initial bindings yields a keymap whose
sparse map and dense table agree. -/
theorem defineKey_preserves_mirror_witness : KmWF kmW2 ∧ KmMirrors kmW2 :=
  defineKey_preserves_mirror kmW [(97 : Fin 256)] (KVal.sym "c") kmW2
    (by
      intro tbl h
      have hfm : kmW.fullMap = some (List.replicate 256 KVal.nil) := rfl
      rw [hfm] at h
      rw [← Option.some.inj h]
      exact List.length_replicate 256 KVal.nil)
    (by
      intro tbl htbl k v hlk hklen
      have hb : kmW.bindings = [] := rfl
      rw [hb] at hlk
      simp [kmLookup] at hlk)
    rfl

theorem condChainWalk_step (reg : ErrReg) (sp : String) (fuel : Nat) (seen : List String)
    (c : String) :
    condChainWalk reg sp (fuel + 1) seen c =
      if c = "" then false
      else if c ∈ seen then false
      else if c = sp then true
      else if c = "error" then false
      else condChainWalk reg sp fuel (c :: seen) ((lookupParent reg c).getD "") := rfl

theorem cond_myerr_matches_error (reg : ErrReg) :
    conditionNameMatches (defineError reg "my-err" none) "error" "my-err" = true := by
  have hw : condChainWalk (defineError reg "my-err" none) "error"
      ((defineError reg "my-err" none).length + 2) [] "my-err" = true := by
    have h1 : (defineError reg "my-err" none).length + 2 = (reg.length + 2) + 1 := rfl
    rw [h1, condChainWalk_step]
    have h2 : lookupParent (defineError reg "my-err" none) "my-err" = some "error" := by
      simp [defineError, lookupParent]
    simp only [h2]
    have h3 : (reg.length + 2 : Nat) = (reg.length + 1) + 1 := rfl
    rw [h3]
    simp [condChainWalk_step]
  simp [conditionNameMatches, hw]

/-- C5: after registering my-err with parent error through define-error,
a condition-case handler clause whose head is error catches a signal of
my-err (the parent-chain walk reaches the root, independent of whatever
else the registry contains); a handler head of t always matches; a list
head containing a reachable name matches; and when no handler clause
matches, the original failure re-propagates unchanged. -/
theorem conditionCase_parent_chain_matching :
    (∀ (reg : ErrReg) (v : Nat),
        conditionCase (defineError reg "my-err" none)
          (Except.error (ElErr.signal "my-err" false)) [(HandlerSpec.sym "error", v)]
          = Except.ok v)
    ∧ (∀ (reg : ErrReg) (cond : String), conditionNameMatches reg "t" cond = true)
    ∧ (∀ reg : ErrReg,
        conditionCaseMatches (defineError reg "my-err" none)
          (HandlerSpec.list ["foo", "error"]) "my-err" = true)
    ∧ (∀ (reg : ErrReg) (e : ElErr) (handlers : List (HandlerSpec × Nat)),
        (∀ p ∈ handlers, conditionCaseMatches reg p.1 (errCondOf e) = false) →
        conditionCase reg (Except.error e) handlers = Except.error e) := by
  refine ⟨?_, ?_, ?_, ?_⟩
  · intro reg v
    have hm : conditionCaseMatches (defineError reg "my-err" none)
        (HandlerSpec.sym "error") (errCondOf (ElErr.signal "my-err" false)) = true :=
      cond_myerr_matches_error reg
    unfold conditionCase
    simp [List.find?, hm]
  · intro reg cond
    simp [conditionNameMatches]
  · intro reg
    simp [conditionCaseMatches, cond_myerr_matches_error reg]
  · intro reg e handlers hnone
    have hfind : handlers.find? (fun p => conditionCaseMatches reg p.1 (errCondOf e))
        = none := by
      apply List.find?_eq_none.mpr
      intro p hp
      simp [hnone p hp]
    simp only [conditionCase, hfind]

/-- Witness for C5: with an empty registry and a single non-matching
handler head foo, the my-err signal re-propagates unchanged. -/
theorem conditionCase_parent_chain_matching_witness :
    conditionCase ([] : ErrReg) (Except.error (ElErr.signal "my-err" false))
      [(HandlerSpec.sym "foo", (0 : Nat))] = Except.error (ElErr.signal "my-err" false) :=
  conditionCase_parent_chain_matching.2.2.2 [] (ElErr.signal "my-err" false)
    [(HandlerSpec.sym "foo", 0)] (by decide)

theorem clLoopGo_iter_bounds {σ : Type} (ctl : ClLoopCtl σ) :
    ∀ (m iter : Nat) (nVal : Int) (s : σ), 100000 - iter ≤ m → iter ≤ 100000 →
      ((clLoopGo ctl iter nVal s).iters ≤ 100000
       ∧ (∀ r, ctl.repeatCount = some r → iter ≤ r → (clLoopGo ctl iter nVal s).iters ≤ r)
       ∧ (∀ n, ctl.seqLen = some n → iter ≤ n → (clLoopGo ctl iter nVal s).iters ≤ n)) := by
  intro m
  induction m with
  | zero =>
    intro iter nVal s hm hle
    have hiter : 100000 ≤ iter := by omega
    rw [clLoopGo, if_pos hiter]
    exact ⟨hle, fun r _ hr => hr, fun n _ hn => hn⟩
  | succ m ih =>
    intro iter nVal s hm hle
    by_cases hcap : 100000 ≤ iter
    · rw [clLoopGo, if_pos hcap]
      exact ⟨hle, fun r _ hr => hr, fun n _ hn => hn⟩
    · rw [clLoopGo, if_neg hcap]
      by_cases hrep : repeatBreak ctl.repeatCount iter = true
      · rw [if_pos hrep]
        exact ⟨hle, fun r _ hr => hr, fun n _ hn => hn⟩
      · rw [if_neg hrep]
        by_cases hseq : seqBreak ctl.seqLen iter = true
        · rw [if_pos hseq]
          exact ⟨hle, fun r _ hr => hr, fun n _ hn => hn⟩
        · rw [if_neg hseq]
          cases hstep : clLoopStepRest ctl iter nVal s with
          | error p =>
            obtain ⟨b, s2⟩ := p
            cases b
            · exact ⟨hle, fun r _ hr => hr, fun n _ hn => hn⟩
            · exact ⟨hle, fun r _ hr => hr, fun n _ hn => hn⟩
          | ok s2 =>
            have ihh := ih (iter + 1) (nVal + (if ctl.numeric.isSome then ctl.numStep else 0))
              s2 (by omega) (by omega)
            refine ⟨ihh.1, ?_, ?_⟩
            · intro r hr hir
              have hlt : iter < r := by
                rcases Nat.lt_or_ge iter r with hc | hc
                · exact hc
                · exact absurd (by simp [repeatBreak, hr]; omega) hrep
              exact ihh.2.1 r hr hlt
            · intro n hn hin
              have hlt : iter < n := by
                rcases Nat.lt_or_ge iter n with hc | hc
                · exact hc
                · exact absurd (by simp [seqBreak, hn]; omega) hseq
              exact ihh.2.2 n hn hlt

/-- C9: the cl-loop iteration phase always stops after at most the hard
cap of 100000 iterations, whatever the bind, assignment, while and body
evaluations do (including a while condition that never becomes false),
and its active termination controllers are enforced each iteration: a
repeat count bounds the iterations by itself, as does the length of an
iterated sequence. -/
theorem clLoop_hard_iteration_cap {σ : Type} (ctl : ClLoopCtl σ) (nStart : Int) (s : σ) :
    (clLoop ctl nStart s).iters ≤ 100000
    ∧ (∀ r, ctl.repeatCount = some r → (clLoop ctl nStart s).iters ≤ r)
    ∧ (∀ n, ctl.seqLen = some n → (clLoop ctl nStart s).iters ≤ n) := by
  have h := clLoopGo_iter_bounds ctl 100000 0 nStart s (by omega) (by omega)
  exact ⟨h.1, fun r hr => h.2.1 r hr (Nat.zero_le r), fun n hn => h.2.2 n hn (Nat.zero_le n)⟩

def clLoopCtlW : ClLoopCtl Unit :=
  { repeatCount := some 2
    seqLen := some 1
    bindSeq := fun _ s => .ok s
    numeric := none
    numStep := 1
    bindNum := fun _ s => .ok s
    assigns := fun s => .ok s
    whileE := none
    body := fun s => .ok s }

/-- Witness for C9: with a repeat count of 2 and a one-element sequence
the loop performs at most 2, and indeed at most 1, iterations. -/
theorem clLoop_hard_iteration_cap_witness :
    (clLoop clLoopCtlW 0 ()).iters ≤ 2 ∧ (clLoop clLoopCtlW 0 ()).iters ≤ 1 :=
  ⟨(clLoop_hard_iteration_cap clLoopCtlW 0 ()).2.1 2 rfl,
   (clLoop_hard_iteration_cap clLoopCtlW 0 ()).2.2 1 rfl⟩

end Runmacs
